import Mathlib

/-!
Verification of the bounded, thread-safe FIFO queue in QNXcode.c.

The queue (struct Queue) owns a singly linked list of DataPacket nodes
(head/tail pointers), a count of stored items, two counting semaphores
(full: items available, starts at 0; empty: free slots, starts at the
capacity), and a mutex.  We embed the program sequentially: the linked
list becomes a Lean List (head of the list = head of the queue), the
semaphore values become Nats, and an operation that would block on a
semaphore whose value is 0 returns none.  malloc outcomes are passed in
as explicit booleans.  The mutex serializes the critical sections, which
the sequential embedding reflects by construction; the order of the
synchronization calls inside enqueue/dequeue is modelled separately as
event traces.
-/

/-- DataPacket from QNXcode.c lines 23-28: a data buffer pointer (modelled
as an optional character list, none standing for NULL), its size, and two
opaque identifiers. -/
structure DataPacket where
  data : Option (List Char)
  size : Int
  eventId : Nat
  eventCorrelationId : Nat
deriving DecidableEq, Repr

/-- The zero-initialized packet `DataPacket data = {0}` built at the top of
dequeue (line 151): NULL buffer, size 0, identifiers 0. -/
def zeroPacket : DataPacket :=
  { data := none, size := 0, eventId := 0, eventCorrelationId := 0 }

/-- Queue from QNXcode.c lines 37-42.  The head/tail linked list of nodes is
abstracted to the list of stored packets (front of the list = head of the
queue); `count` is the C int counter; `full` and `empty` are the current
values of the two semaphores. -/
structure Queue where
  items : List DataPacket
  count : Int
  full : Nat
  empty : Nat
deriving DecidableEq, Repr

/-- initializeQueue (lines 93-100): empty list, count 0, semaphore `full`
initialized to 0 and `empty` to the capacity `size`. -/
def initializeQueue (size : Nat) : Queue :=
  { items := [], count := 0, full := 0, empty := size }

/-- enqueue (lines 113-138).  `mallocOk` is the outcome of the node
allocation at line 114: on failure the function logs and returns with the
queue untouched (lines 115-119).  Otherwise sem_wait(empty) blocks while
the queue is full (modelled as none when `empty = 0`); then under the lock
the node is appended at the tail and count incremented, and after unlock
sem_post(full) runs. -/
def enqueue (mallocOk : Bool) (q : Queue) (d : DataPacket) : Option Queue :=
  if mallocOk = false then
    some q
  else if q.empty = 0 then
    none
  else
    some { items := q.items ++ [d], count := q.count + 1,
           full := q.full + 1, empty := q.empty - 1 }

/-- dequeue (lines 150-178).  sem_wait(full) blocks while the queue is
empty (none when `full = 0`).  If the list is unexpectedly empty
(lines 156-161) the function unlocks, logs an error, posts the `empty`
semaphore and returns the zero-initialized packet.  Otherwise the head
node is removed, count decremented, and after unlock sem_post(empty)
runs and the head packet is returned. -/
def dequeue (q : Queue) : Option (Queue × DataPacket) :=
  if q.full = 0 then
    none
  else
    match q.items with
    | [] =>
        some ({ q with full := q.full - 1, empty := q.empty + 1 }, zeroPacket)
    | p :: rest =>
        some ({ items := rest, count := q.count - 1,
                full := q.full - 1, empty := q.empty + 1 }, p)

/-- A sequence of enqueue calls (all with successful node allocation),
performed without interleaving dequeues; none if any of them blocks. -/
def enqueueAll (q : Queue) : List DataPacket → Option Queue
  | [] => some q
  | d :: ds =>
    match enqueue true q d with
    | none => none
    | some q2 => enqueueAll q2 ds

/-- A sequence of n dequeue calls, collecting the returned packets in call
order; none if any of them blocks. -/
def dequeueN (q : Queue) : Nat → Option (Queue × List DataPacket)
  | 0 => some (q, [])
  | n + 1 =>
    match dequeue q with
    | none => none
    | some (q2, p) =>
      match dequeueN q2 n with
      | none => none
      | some (q3, ps) => some (q3, p :: ps)

/-- Consistency of a queue of capacity `cap`: the counter matches the
number of stored items, the `full` semaphore counts the stored items, and
the `empty` semaphore counts the free slots. -/
def QueueInv (cap : Nat) (q : Queue) : Prop :=
  q.count = (q.items.length : Int) ∧
  q.full = q.items.length ∧
  q.empty + q.items.length = cap

instance (cap : Nat) (q : Queue) : Decidable (QueueInv cap q) := by
  unfold QueueInv; infer_instance

/-- States reachable from an initialized queue of capacity `cap` by any
sequence of enqueue calls (with either malloc outcome) and dequeue calls
that return. -/
inductive Reachable (cap : Nat) : Queue → Prop
  | init : Reachable cap (initializeQueue cap)
  | enq (ok : Bool) (d : DataPacket) (q q2 : Queue) :
      Reachable cap q → enqueue ok q d = some q2 → Reachable cap q2
  | deq (q q2 : Queue) (p : DataPacket) :
      Reachable cap q → dequeue q = some (q2, p) → Reachable cap q2

theorem queueInv_init (cap : Nat) : QueueInv cap (initializeQueue cap) := by
  simp [QueueInv, initializeQueue]

theorem queueInv_enqueue {cap : Nat} {q q2 : Queue} {ok : Bool} {d : DataPacket}
    (hinv : QueueInv cap q) (h : enqueue ok q d = some q2) : QueueInv cap q2 := by
  obtain ⟨hc, hf, he⟩ := hinv
  unfold enqueue at h
  by_cases hok : ok = false
  · simp [hok] at h
    exact h ▸ ⟨hc, hf, he⟩
  · by_cases hemp : q.empty = 0
    · simp [hok, hemp] at h
    · simp [hok, hemp] at h
      subst h
      refine ⟨?_, ?_, ?_⟩
      · simp [hc]
      · simp [hf]
      · simp; omega

theorem queueInv_dequeue {cap : Nat} {q q2 : Queue} {p : DataPacket}
    (hinv : QueueInv cap q) (h : dequeue q = some (q2, p)) : QueueInv cap q2 := by
  obtain ⟨hc, hf, he⟩ := hinv
  unfold dequeue at h
  by_cases hfull : q.full = 0
  · simp [hfull] at h
  · cases hitems : q.items with
    | nil =>
        rw [hitems] at hf
        simp at hf
        exact absurd hf hfull
    | cons x rest =>
        simp [hfull, hitems] at h
        obtain ⟨h1, _⟩ := h
        subst h1
        rw [hitems] at hc hf he
        simp at hc hf he
        refine ⟨?_, ?_, ?_⟩
        · simp [hc]
        · simp [hf]
        · simp; omega

theorem reachable_inv {cap : Nat} {q : Queue} (h : Reachable cap q) :
    QueueInv cap q := by
  induction h with
  | init => exact queueInv_init cap
  | enq ok d q q2 _ hstep ih => exact queueInv_enqueue ih hstep
  | deq q q2 p _ hstep ih => exact queueInv_dequeue ih hstep

theorem enqueueAll_complete {cap : Nat} :
    ∀ (ps : List DataPacket) (q : Queue), QueueInv cap q →
      ps.length ≤ q.empty →
      ∃ q2, enqueueAll q ps = some q2 ∧ q2.items = q.items ++ ps ∧ QueueInv cap q2
  | [], q, hinv, _ => ⟨q, rfl, by simp, hinv⟩
  | d :: ds, q, hinv, hle => by
    have hemp : q.empty ≠ 0 := by
      simp at hle; omega
    have hstep : enqueue true q d =
        some { items := q.items ++ [d], count := q.count + 1,
               full := q.full + 1, empty := q.empty - 1 } := by
      simp [enqueue, hemp]
    have hle2 : ds.length ≤ q.empty - 1 := by
      simp at hle; omega
    obtain ⟨q2, hrun, hitems, hinv3⟩ :=
      enqueueAll_complete ds _ (queueInv_enqueue hinv hstep) hle2
    refine ⟨q2, ?_, ?_, hinv3⟩
    · simp [enqueueAll, hstep, hrun]
    · simp at hitems
      simp [hitems]

theorem dequeueN_complete {cap : Nat} :
    ∀ (l : List DataPacket) (q : Queue), QueueInv cap q → q.items = l →
      ∃ q2, dequeueN q l.length = some (q2, l) ∧ q2.items = [] ∧ QueueInv cap q2
  | [], q, hinv, hitems => ⟨q, rfl, hitems, hinv⟩
  | p :: rest, q, hinv, hitems => by
    obtain ⟨hc, hf, he⟩ := hinv
    have hfull : q.full ≠ 0 := by
      rw [hitems] at hf; simp [hf]
    have hstep : dequeue q =
        some ({ items := rest, count := q.count - 1,
                full := q.full - 1, empty := q.empty + 1 }, p) := by
      simp [dequeue, hfull, hitems]
    obtain ⟨q2, hrun, hnil, hinv3⟩ :=
      dequeueN_complete rest _ (queueInv_dequeue ⟨hc, hf, he⟩ hstep) rfl
    refine ⟨q2, ?_, hnil, hinv3⟩
    simp [dequeueN, hstep, hrun]

/-- C1. FIFO order: starting from an initialized queue of capacity at least
n, enqueueing packets p1, ..., pn with no interleaving dequeues succeeds
(enqueue appends at the tail), and a matching sequence of n dequeue calls
returns exactly p1, ..., pn in that order (dequeue removes from the head). -/
theorem fifo_order (cap : Nat) (ps : List DataPacket) (hcap : ps.length ≤ cap) :
    ∃ q, enqueueAll (initializeQueue cap) ps = some q ∧
      q.items = ps ∧
      ∃ qf, dequeueN q ps.length = some (qf, ps) := by
  have hinit : QueueInv cap (initializeQueue cap) := queueInv_init cap
  have hle : ps.length ≤ (initializeQueue cap).empty := by
    simpa [initializeQueue] using hcap
  obtain ⟨q, hrun, hitems, hinv⟩ := enqueueAll_complete ps _ hinit hle
  simp [initializeQueue] at hitems
  obtain ⟨qf, hdeq, _, _⟩ := dequeueN_complete ps q hinv hitems
  exact ⟨q, hrun, hitems, qf, hdeq⟩

/-- Concrete packets used in witnesses. -/
def packetA : DataPacket :=
  { data := some ['a'], size := 1, eventId := 1, eventCorrelationId := 10 }

def packetB : DataPacket :=
  { data := some ['b', 'c'], size := 2, eventId := 2, eventCorrelationId := 20 }

/-- Witness for C1 at capacity 2 and packets [packetA, packetB]. -/
theorem fifo_order_witness :
    ∃ q, enqueueAll (initializeQueue 2) [packetA, packetB] = some q ∧
      q.items = [packetA, packetB] ∧
      ∃ qf, dequeueN q [packetA, packetB].length = some (qf, [packetA, packetB]) :=
  fifo_order 2 [packetA, packetB] (by decide)

/-- C2. Count invariant: every queue state reachable from an initialized
queue by any sequence of enqueue and dequeue operations satisfies
0 <= count <= capacity, and count equals the number of items actually
stored in the list; reachability closure means every operation preserves
this invariant. -/
theorem count_invariant (cap : Nat) (q : Queue) (h : Reachable cap q) :
    0 ≤ q.count ∧ q.count ≤ (cap : Int) ∧ q.count = (q.items.length : Int) := by
  obtain ⟨hc, hf, he⟩ := reachable_inv h
  refine ⟨?_, ?_, hc⟩ <;> omega

/-- Witness for C2 at the initialized queue of capacity 3. -/
theorem count_invariant_witness :
    0 ≤ (initializeQueue 3).count ∧ (initializeQueue 3).count ≤ (3 : Int) ∧
    (initializeQueue 3).count = ((initializeQueue 3).items.length : Int) :=
  count_invariant 3 (initializeQueue 3) Reachable.init

/-- C4. Dequeue never takes the head == NULL error branch (and so never
returns the zero-initialized "queue empty" packet from it) when count > 0:
if the items-available (full) signal is acquirable and count agrees with
the stored list, dequeue removes and returns the actual head packet. -/
theorem dequeue_no_false_empty (q : Queue) (hfull : 0 < q.full)
    (hcons : q.count = (q.items.length : Int)) (hpos : 0 < q.count) :
    ∃ p rest, q.items = p :: rest ∧
      dequeue q = some ({ items := rest, count := q.count - 1,
                          full := q.full - 1, empty := q.empty + 1 }, p) := by
  have hf0 : q.full ≠ 0 := by omega
  cases hitems : q.items with
  | nil =>
      rw [hitems] at hcons
      simp at hcons
      omega
  | cons p rest =>
      refine ⟨p, rest, rfl, ?_⟩
      simp [dequeue, hf0, hitems]

/-- A concrete consistent one-element queue used in witnesses. -/
def smallQueue : Queue :=
  { items := [packetA], count := 1, full := 1, empty := 1 }

/-- Witness for C4 at a concrete one-element queue. -/
theorem dequeue_no_false_empty_witness :
    ∃ p rest, smallQueue.items = p :: rest ∧
      dequeue smallQueue =
        some ({ items := rest, count := smallQueue.count - 1, full := smallQueue.full - 1, empty := smallQueue.empty + 1 }, p) :=
  dequeue_no_false_empty smallQueue (by decide) (by decide) (by decide)

/-- A desynchronized state: the items-available (full) semaphore is
positive although the stored list is empty. -/
def desyncQueue : Queue :=
  { items := [], count := 0, full := 1, empty := 5 }

/-- C5 counterexample: on the desynchronized state (full = 1, empty list),
dequeue does NOT restore the items-available (full) signal it consumed —
full drops from 1 to 0 — and it does alter other synchronization state,
posting the slots-available (empty) semaphore from 5 to 6. -/
theorem dequeue_desync_counterexample :
    dequeue desyncQueue =
      some ({ items := [], count := 0, full := 0, empty := 6 }, zeroPacket) ∧
    desyncQueue.full = 1 ∧ desyncQueue.empty = 5 := by
  decide

/-- C5 amended: when dequeue finds the internal list empty although the
items-available (full) signal it consumed was positive, it logs an error
message and posts the slots-available (empty) semaphore — leaving the
consumed full count unrestored — and returns the zero-initialized packet,
with the list and count unchanged. -/
theorem dequeue_desync_behavior (q : Queue) (hfull : q.full ≠ 0)
    (hnil : q.items = []) :
    dequeue q =
      some ({ q with full := q.full - 1, empty := q.empty + 1 }, zeroPacket) := by
  simp [dequeue, hfull, hnil]

/-- Witness for the amended C5 at the concrete desynchronized state. -/
theorem dequeue_desync_behavior_witness :
    dequeue desyncQueue =
      some ({ desyncQueue with full := desyncQueue.full - 1, empty := desyncQueue.empty + 1 }, zeroPacket) :=
  dequeue_desync_behavior desyncQueue (by decide) (by decide)

/-- C6 counterexample: when the node allocation fails, enqueue returns
normally with the queue unchanged and the packet dropped — the packet is
not appended and count is not incremented, so allocation failure is an
ordinary return path, not a fatal condition. -/
theorem enqueue_malloc_counterexample :
    enqueue false (initializeQueue 3) packetA = some (initializeQueue 3) ∧
    (initializeQueue 3).items = [] ∧ (initializeQueue 3).count = 0 := by
  decide

/-- C6 amended: an enqueue call that returns has appended the packet at
the tail and incremented count whenever the node allocation succeeded;
when the allocation fails, enqueue returns normally leaving the queue
unchanged (the packet is dropped), a normal return path rather than a
fatal/unrecoverable condition. -/
theorem enqueue_return_behavior (ok : Bool) (q q2 : Queue) (d : DataPacket)
    (h : enqueue ok q d = some q2) :
    (ok = true → q2.items = q.items ++ [d] ∧ q2.count = q.count + 1) ∧
    (ok = false → q2 = q) := by
  unfold enqueue at h
  cases ok with
  | false =>
      simp at h
      subst h
      simp
  | true =>
      by_cases hemp : q.empty = 0
      · simp [hemp] at h
      · simp [hemp] at h
        subst h
        simp

/-- The queue obtained by one successful enqueue of packetA into an
initialized queue of capacity 3. -/
def enqResultA : Queue :=
  { items := [packetA], count := 1, full := 1, empty := 2 }

/-- Witness for the amended C6 at a concrete successful enqueue. -/
theorem enqueue_return_behavior_witness :
    (true = true → enqResultA.items = (initializeQueue 3).items ++ [packetA] ∧
      enqResultA.count = (initializeQueue 3).count + 1) ∧
    (true = false → enqResultA = initializeQueue 3) :=
  enqueue_return_behavior true (initializeQueue 3) enqResultA packetA (by decide)

/-- An operation performed on the shared queue under normal operation
(node allocation succeeding): an enqueue of one packet, or a dequeue. -/
inductive QueueOp where
  | enq (d : DataPacket)
  | deq
deriving DecidableEq, Repr

/-- Run a list of operations, threading the queue state and collecting the
packets returned by the dequeue calls in call order; none if any operation
blocks. -/
def runOps (q : Queue) (outs : List DataPacket) :
    List QueueOp → Option (Queue × List DataPacket)
  | [] => some (q, outs)
  | QueueOp.enq d :: rest =>
    match enqueue true q d with
    | none => none
    | some q2 => runOps q2 outs rest
  | QueueOp.deq :: rest =>
    match dequeue q with
    | none => none
    | some (q2, p) => runOps q2 (outs ++ [p]) rest

/-- The packets passed to enqueue by a list of operations, in call order. -/
def enqueuedPackets : List QueueOp → List DataPacket
  | [] => []
  | QueueOp.enq d :: rest => d :: enqueuedPackets rest
  | QueueOp.deq :: rest => enqueuedPackets rest

theorem runOps_partition {cap : Nat} :
    ∀ (ops : List QueueOp) (q : Queue) (outs : List DataPacket)
      (qf : Queue) (outs2 : List DataPacket), QueueInv cap q →
      runOps q outs ops = some (qf, outs2) →
      outs2 ++ qf.items = outs ++ q.items ++ enqueuedPackets ops ∧ QueueInv cap qf
  | [], q, outs, qf, outs2, hinv, hrun => by
    simp only [runOps, Option.some.injEq, Prod.mk.injEq] at hrun
    obtain ⟨h1, h2⟩ := hrun
    subst h1
    subst h2
    exact ⟨by simp [enqueuedPackets], hinv⟩
  | QueueOp.enq d :: rest, q, outs, qf, outs2, hinv, hrun => by
    by_cases hemp : q.empty = 0
    · simp [runOps, enqueue, hemp] at hrun
    · have hstep : enqueue true q d =
          some { items := q.items ++ [d], count := q.count + 1,
                 full := q.full + 1, empty := q.empty - 1 } := by
        simp [enqueue, hemp]
      simp only [runOps, hstep] at hrun
      obtain ⟨hlist, hinvf⟩ :=
        runOps_partition rest _ outs qf outs2 (queueInv_enqueue hinv hstep) hrun
      refine ⟨?_, hinvf⟩
      rw [hlist]
      simp [enqueuedPackets]
  | QueueOp.deq :: rest, q, outs, qf, outs2, hinv, hrun => by
    obtain ⟨hc, hf, he⟩ := hinv
    by_cases hfull : q.full = 0
    · simp [runOps, dequeue, hfull] at hrun
    · cases hitems : q.items with
      | nil =>
          rw [hitems] at hf
          simp at hf
          exact absurd hf hfull
      | cons p rest2 =>
          have hstep : dequeue q =
              some ({ items := rest2, count := q.count - 1,
                      full := q.full - 1, empty := q.empty + 1 }, p) := by
            simp [dequeue, hfull, hitems]
          simp only [runOps, hstep] at hrun
          obtain ⟨hlist, hinvf⟩ :=
            runOps_partition rest _ (outs ++ [p]) qf outs2
              (queueInv_dequeue ⟨hc, hf, he⟩ hstep) hrun
          refine ⟨?_, hinvf⟩
          rw [hlist]
          simp [enqueuedPackets]

/-- C3. No loss or duplication: for every sequence of enqueue and dequeue
operations that runs from an initialized queue, the multiset of packets
returned by the dequeues plus the multiset of packets still stored in the
queue equals the multiset of packets passed to enqueue — no packet is
returned twice and none is dropped silently under normal operation. -/
theorem no_loss_no_duplication (cap : Nat) (ops : List QueueOp)
    (qf : Queue) (outs : List DataPacket)
    (h : runOps (initializeQueue cap) [] ops = some (qf, outs)) :
    (outs : Multiset DataPacket) + (qf.items : Multiset DataPacket) =
      (enqueuedPackets ops : Multiset DataPacket) := by
  obtain ⟨hlist, _⟩ :=
    runOps_partition ops (initializeQueue cap) [] qf outs (queueInv_init cap) h
  simp [initializeQueue] at hlist
  rw [Multiset.coe_add]
  exact congrArg (fun l : List DataPacket => (l : Multiset DataPacket)) hlist

/-- A concrete operation sequence: enqueue packetA, enqueue packetB,
dequeue once. -/
def demoOps : List QueueOp :=
  [QueueOp.enq packetA, QueueOp.enq packetB, QueueOp.deq]

/-- The queue state after running demoOps from an initialized queue of
capacity 2. -/
def demoFinalQueue : Queue :=
  { items := [packetB], count := 1, full := 1, empty := 1 }

/-- Witness for C3 at the concrete run of demoOps from capacity 2. -/
theorem no_loss_no_duplication_witness :
    (([packetA] : List DataPacket) : Multiset DataPacket) +
      (demoFinalQueue.items : Multiset DataPacket) =
      (enqueuedPackets demoOps : Multiset DataPacket) :=
  no_loss_no_duplication 2 demoOps demoFinalQueue [packetA] (by decide)

/-- C7. Bounded capacity blocking: for a queue initialized with capacity C,
after C enqueues with no intervening dequeues the next enqueue call blocks
(returns none, adding nothing) and, once a dequeue occurs, an enqueue can
complete again; moreover no enqueue on a consistent queue completes while
count equals the capacity. -/
theorem bounded_capacity_blocking (cap : Nat) (ps : List DataPacket)
    (d : DataPacket) (hlen : ps.length = cap) :
    (∃ q, enqueueAll (initializeQueue cap) ps = some q ∧
       q.count = (cap : Int) ∧ enqueue true q d = none ∧
       (0 < cap → ∃ q2 p, dequeue q = some (q2, p) ∧
         (enqueue true q2 d).isSome = true)) ∧
    (∀ q : Queue, QueueInv cap q → q.count = (cap : Int) →
       enqueue true q d = none) := by
  constructor
  · obtain ⟨q, hrun, hitems, hinv⟩ :=
      enqueueAll_complete ps (initializeQueue cap) (queueInv_init cap)
        (by simp [initializeQueue, hlen])
    obtain ⟨hc, hf, he⟩ := hinv
    simp [initializeQueue] at hitems
    have hlenq : q.items.length = cap := by rw [hitems, hlen]
    have hemp : q.empty = 0 := by omega
    refine ⟨q, hrun, by rw [hc, hlenq], by simp [enqueue, hemp], ?_⟩
    intro hpos
    cases hq : q.items with
    | nil =>
        rw [hq] at hlenq
        simp at hlenq
        omega
    | cons p rest =>
        have hf0 : q.full ≠ 0 := by
          rw [hq] at hf
          simp [hf]
        refine ⟨{ items := rest, count := q.count - 1, full := q.full - 1, empty := q.empty + 1 }, p, by simp [dequeue, hf0, hq], ?_⟩
        simp [enqueue]
  · intro q hinv hcount
    obtain ⟨hc, hf, he⟩ := hinv
    have hemp : q.empty = 0 := by omega
    simp [enqueue, hemp]

/-- Witness for C7 at capacity 2 with packets [packetA, packetB]. -/
theorem bounded_capacity_blocking_witness :
    (∃ q, enqueueAll (initializeQueue 2) [packetA, packetB] = some q ∧
       q.count = ((2 : Nat) : Int) ∧ enqueue true q packetB = none ∧
       (0 < 2 → ∃ q2 p, dequeue q = some (q2, p) ∧
         (enqueue true q2 packetB).isSome = true)) ∧
    (∀ q : Queue, QueueInv 2 q → q.count = ((2 : Nat) : Int) →
       enqueue true q packetB = none) :=
  bounded_capacity_blocking 2 [packetA, packetB] packetB (by decide)

/-- The synchronization and bookkeeping calls in the enqueue and dequeue
bodies, in source order. -/
inductive SyncEvent where
  | semWaitEmptySlots
  | semWaitItemsAvail
  | mutexLock
  | mutexUnlock
  | semPostItemsAvail
  | semPostEmptySlots
  | listSplice
  | logCall
  | mallocCall
  | freeCall
deriving DecidableEq, Repr

/-- enqueue (lines 113-138), allocation succeeding: malloc the node,
sem_wait(empty), lock the mutex, splice the node and bump count, unlock
the mutex, sem_post(full), log. -/
def enqueueEvents : List SyncEvent :=
  [SyncEvent.mallocCall, SyncEvent.semWaitEmptySlots, SyncEvent.mutexLock,
   SyncEvent.listSplice, SyncEvent.mutexUnlock, SyncEvent.semPostItemsAvail,
   SyncEvent.logCall]

/-- dequeue (lines 150-178), normal path: sem_wait(full), lock the mutex,
unsplice the head and drop count, unlock the mutex, sem_post(empty), free
the node, log. -/
def dequeueEvents : List SyncEvent :=
  [SyncEvent.semWaitItemsAvail, SyncEvent.mutexLock, SyncEvent.listSplice,
   SyncEvent.mutexUnlock, SyncEvent.semPostEmptySlots, SyncEvent.freeCall,
   SyncEvent.logCall]

/-- dequeue (lines 153-161), unexpected-empty path: sem_wait(full), lock
the mutex, unlock the mutex, log the error, sem_post(empty). -/
def dequeueErrorEvents : List SyncEvent :=
  [SyncEvent.semWaitItemsAvail, SyncEvent.mutexLock, SyncEvent.mutexUnlock,
   SyncEvent.logCall, SyncEvent.semPostEmptySlots]

def isSemWait : SyncEvent → Bool
  | SyncEvent.semWaitEmptySlots => true
  | SyncEvent.semWaitItemsAvail => true
  | _ => false

def isSemPost : SyncEvent → Bool
  | SyncEvent.semPostItemsAvail => true
  | SyncEvent.semPostEmptySlots => true
  | _ => false

/-- The lock discipline for one call trace: the mutex is locked before it
is unlocked, every semaphore wait occurs strictly before the mutex is
acquired, and every semaphore post occurs strictly after the mutex is
released — hence the mutex is never held while waiting on a signal. -/
def lockDiscipline (t : List SyncEvent) : Bool :=
  decide (t.indexOf SyncEvent.mutexLock < t.indexOf SyncEvent.mutexUnlock) &&
  (List.range t.length).all (fun i =>
    (!(isSemWait (t.getD i SyncEvent.mutexLock)) ||
      decide (i < t.indexOf SyncEvent.mutexLock)) &&
    (!(isSemPost (t.getD i SyncEvent.mutexLock)) ||
      decide (t.indexOf SyncEvent.mutexUnlock < i)))

/-- C8. Lock ordering: on the enqueue path and on both dequeue paths, the
counting-signal acquire strictly precedes acquiring the mutex, the signal
release on the opposite resource occurs only after the mutex is released,
and at no step is the mutex held while waiting on a signal. -/
theorem lock_ordering :
    lockDiscipline enqueueEvents = true ∧
    lockDiscipline dequeueEvents = true ∧
    lockDiscipline dequeueErrorEvents = true := by
  decide

/-- The packet a writer thread builds on one loop iteration
(lines 248-256): the payload buffer, the size returned by
get_external_data, and both identifiers set to 0. -/
def mkWriterPacket (buf : List Char) (len : Int) : DataPacket :=
  { data := some buf, size := len, eventId := 0, eventCorrelationId := 0 }

/-- One iteration of the writer_thread loop body (lines 247-263) acting on
the shared queue.  `bufOk` is the outcome of the payload malloc at line
249 (on failure the iteration just continues), `nodeOk` the outcome of the
node malloc inside enqueue, `extLen` the value returned by
get_external_data, `buf` the payload contents.  The result carries the
queue state together with whether enqueue was called and whether the
payload buffer was freed this iteration. -/
def writerIteration (q : Queue) (bufOk nodeOk : Bool) (extLen : Int)
    (buf : List Char) : Option (Queue × Bool × Bool) :=
  if bufOk = false then
    some (q, false, false)
  else if 0 < extLen then
    match enqueue nodeOk q (mkWriterPacket buf extLen) with
    | none => none
    | some q2 => some (q2, true, false)
  else
    some (q, false, true)

/-- C9. Zero-length discard: on every producer iteration in which the
external source returns a length <= 0, the producer does not call enqueue,
leaves the queue (and hence its contents and count) unchanged, and frees
the payload buffer. -/
theorem zero_length_discard (q : Queue) (nodeOk : Bool) (extLen : Int)
    (buf : List Char) (hlen : extLen ≤ 0) :
    writerIteration q true nodeOk extLen buf = some (q, false, true) := by
  have hneg : ¬ (0 < extLen) := by omega
  simp [writerIteration, hneg]

/-- Witness for C9 at a concrete queue and a zero-length read. -/
theorem zero_length_discard_witness :
    writerIteration smallQueue true true 0 [] = some (smallQueue, false, true) :=
  zero_length_discard smallQueue true 0 [] (by decide)

/-- get_external_data (lines 191-202): val = rand() % bufferSizeInBytes
(the rand() call yields a nonnegative machine integer, passed in here as
randVal); if bufferSizeInBytes < val the function returns -1, otherwise it
copies val characters into the buffer and returns val. -/
def get_external_data (randVal : Nat) (bufferSizeInBytes : Int) : Int :=
  let val : Int := (randVal : Int) % bufferSizeInBytes
  if bufferSizeInBytes < val then -1 else val

/-- C10. For every call with bufferSizeInBytes > 0, the value returned by
get_external_data lies between 0 and bufferSizeInBytes - 1 inclusive, and
the -1 error branch is unreachable because its guard is always false. -/
theorem get_external_data_range (randVal : Nat) (B : Int) (hB : 0 < B) :
    0 ≤ get_external_data randVal B ∧ get_external_data randVal B ≤ B - 1 ∧
    ¬ (B < (randVal : Int) % B) := by
  have h0 : (0 : Int) ≤ (randVal : Int) % B := Int.emod_nonneg _ (by omega)
  have h1 : (randVal : Int) % B < B := Int.emod_lt_of_pos _ hB
  have hbr : ¬ (B < (randVal : Int) % B) := by omega
  refine ⟨?_, ?_, hbr⟩
  · simpa [get_external_data, hbr] using h0
  · have h2 : (randVal : Int) % B ≤ B - 1 := by omega
    simpa [get_external_data, hbr] using h2

/-- Witness for C10 at the 1024-byte buffer used by writer_thread. -/
theorem get_external_data_range_witness :
    0 ≤ get_external_data 77 1024 ∧ get_external_data 77 1024 ≤ 1024 - 1 ∧
    ¬ ((1024 : Int) < ((77 : Nat) : Int) % 1024) :=
  get_external_data_range 77 1024 (by decide)
